import Mathlib

/-!
# http-ws-pubsub: the subscriber registry and the four handlers of `main.go`

A shallow embedding of `main.go`.  The global `subscribersSlice` is passed
explicitly; a handler maps the slice (and its request) to the new slice and
the state of its `http.ResponseWriter`.  The mutex only serialises the
handlers, so each handler is one atomic step here.

Go strings are modelled by Lean strings; Go compares strings bytewise,
which on well-formed UTF-8 is the lexicographic order of the code points.
-/

namespace PubSub

/-! ## Standard library: package `sort` -/

/-- Go's `a < b` on strings. -/
def strLess (a b : String) : Bool := decide (a.toList < b.toList)

/-- The loop of `sort.Search`: `i, j := 0, n; for i < j { h := int(uint(i+j) >> 1);
if !f(h) { i = h + 1 } else { j = h } }; return i`.  The first argument
bounds the number of iterations. -/
def searchLoop (f : Nat → Bool) : Nat → Nat → Nat → Nat
  | 0, i, _ => i
  | fuel + 1, i, j =>
    if i < j then
      let h := (i + j) / 2
      if !f h then searchLoop f fuel (h + 1) j else searchLoop f fuel i h
    else i

/-- Go's `sort.Search(n, f)`; every iteration shrinks `j - i`, so `n` iterations suffice. -/
def sort.Search (n : Nat) (f : Nat → Bool) : Nat := searchLoop f n 0 n

/-- Go's `sort.SearchStrings(a, x)`, that is
`sort.Search(len(a), func(i int) bool { return a[i] >= x })`. -/
def sort.SearchStrings (a : List String) (x : String) : Nat :=
  sort.Search a.length (fun i => !strLess (a.getD i "") x)

/-- Go's `sort.Strings(a)`: the slice rearranged in ascending order.  Strings that
compare equal are identical, so the result does not depend on the algorithm. -/
def sort.Strings (a : List String) : List String :=
  a.insertionSort (fun x y => strLess y x = false)

/-! ## Standard library: `net/http` status codes and the response writer -/

def StatusOK : Nat := 200
def StatusBadRequest : Nat := 400
def StatusForbidden : Nat := 403
def StatusNotFound : Nat := 404
def StatusConflict : Nat := 409
def StatusInternalServerError : Nat := 500

/-- JSON values. -/
inductive Json where
  | null
  | bool (b : Bool)
  | num (literal : String)
  | str (s : String)
  | arr (items : List Json)
  | obj (members : List (String × Json))

/-- One `w.Write`: plain text (`err.Error()`) or the document `json.Marshal` produced. -/
inductive Chunk where
  | text (s : String)
  | json (v : Json)

/-- The state of an `http.ResponseWriter`: the status code sent and the chunks written. -/
structure ResponseWriter where
  status : Option Nat := none
  body : List Chunk := []

/-- The method `w.WriteHeader(code)`: the first call fixes the status. -/
def ResponseWriter.WriteHeader (w : ResponseWriter) (code : Nat) : ResponseWriter :=
  { w with status := some (w.status.getD code) }

/-- The method `w.Write(b)`: sends status 200 first when no header was written. -/
def ResponseWriter.Write (w : ResponseWriter) (b : Chunk) : ResponseWriter :=
  { status := some (w.status.getD StatusOK), body := w.body ++ [b] }

/-! ## Standard library: `encoding/json` on the two payload structs -/

/-- A struct field as `encoding/json` sees it: its Go identifier and the key named
by its `json` tag. -/
structure Field where
  ident : String
  key : String

/-- Go exports an identifier iff its first letter is upper case; `encoding/json`
reads and writes exported fields only. -/
def Field.exported (f : Field) : Bool :=
  match f.ident.toList with
  | c :: _ => c.isUpper
  | [] => false

/-- The struct `SubscribePayload`: `url string` with tag `json:"url"`. -/
structure SubscribePayload where
  url : String := ""

/-- The fields of `SubscribePayload`. -/
def SubscribePayload.fields : List Field := [⟨"url", "url"⟩]

/-- The struct `ErrorPayload`: `error string` tagged `json:"error"` and
`url []string` tagged `json:"url, omitempty"`. -/
structure ErrorPayload where
  error : String := ""
  url : List String := []

/-- The fields of an `ErrorPayload` with their values as JSON (a nil slice is `null`). -/
def ErrorPayload.fields (e : ErrorPayload) : List (Field × Json) :=
  [(⟨"error", "error"⟩, .str e.error),
   (⟨"url", "url"⟩, if e.url = [] then .null else .arr (e.url.map .str))]

/-- Go's `json.Marshal` of a struct: an object with one member per exported field. -/
def json.Marshal (fields : List (Field × Json)) : Json :=
  .obj ((fields.filter (fun p => p.1.exported)).map (fun p => (p.1.key, p.2)))

/-- Go's `json.Marshal` of a `[]string`: the array of its elements (the model does
not tell a nil slice, written `null`, from an empty one). -/
def json.MarshalStrings (a : List String) : Json := .arr (a.map .str)

/-- Decoding one member of a JSON object into a `SubscribePayload`: the key is
looked up, ignoring case, among the exported fields; a member without a field is
skipped.  The second component is the first error met. -/
def decodeMember (st : SubscribePayload × Option String) (kv : String × Json) :
    SubscribePayload × Option String :=
  match (SubscribePayload.fields.filter Field.exported).find?
      (fun f => f.key.toLower == kv.1.toLower) with
  | none => st
  | some _ =>
    match kv.2 with
    | .str s => ({ url := s }, st.2)
    | .null => st
    | _ => (st.1, st.2.orElse fun _ =>
        some "json: cannot unmarshal value into Go struct field SubscribePayload.url of type string")

/-- Go's `json.Unmarshal(data, payload)` for `payload *SubscribePayload`.  `data` is
given as the JSON text parses: a syntax error or a value.  Returns the payload
and `err` (`none` is Go's `nil`). -/
def json.Unmarshal (data : Except String Json) (payload : SubscribePayload) :
    SubscribePayload × Option String :=
  match data with
  | .error e => (payload, some e)
  | .ok .null => (payload, none)
  | .ok (.obj members) => members.foldl decodeMember (payload, none)
  | .ok _ =>
    (payload, some "json: cannot unmarshal value into Go value of type main.SubscribePayload")

/-! ## Standard library: `net/url` -/

/-- The two fields of `url.URL` that `IsUrl` reads. -/
structure URL where
  Scheme : String
  Host : String

/-! ## `main.go` -/

/-- The function `IsUrl`: `u, err := url.Parse(str); return err == nil && u.Scheme != ""
&& u.Host != ""`.  `parse` is `url.Parse`. -/
def IsUrl (parse : String → Except String URL) (str : String) : Bool :=
  match parse str with
  | .ok u => u.Scheme != "" && u.Host != ""
  | .error _ => false

/-- What a handler leaves behind: the registry, the response, and whether it
ended in a run-time panic instead of returning. -/
structure Outcome where
  subscribersSlice : List String
  w : ResponseWriter
  panicked : Bool := false

/-- A request body as a handler meets it: `ioutil.ReadAll` failed, or it returned
bytes, given as they parse as JSON text. -/
inductive Body where
  | readError (err : String)
  | read (data : Except String Json)

/-- The critical section of `subscribe` (lines 50-61), `url` being `payload.url`. -/
def subscribeLocked (subscribersSlice : List String) (url : String) (w : ResponseWriter) :
    List String × ResponseWriter :=
  let index := sort.SearchStrings subscribersSlice url
  if index = subscribersSlice.length then
    (sort.Strings (subscribersSlice ++ [url]), w.WriteHeader StatusOK)
  else
    (subscribersSlice,
      (w.WriteHeader StatusForbidden).Write
        (.json (json.Marshal (ErrorPayload.fields { error := "URL is already registered" }))))

/-- The handler `subscribe`. -/
def subscribe (parse : String → Except String URL) (reqBody : Body)
    (subscribersSlice : List String) : Outcome :=
  let w : ResponseWriter := {}
  match reqBody with
  | .readError e =>
    ⟨subscribersSlice, (w.WriteHeader StatusInternalServerError).Write (.text e), false⟩
  | .read data =>
    let (payload, err) := json.Unmarshal data {}
    if err.isSome || !IsUrl parse payload.url then
      let w := w.WriteHeader StatusBadRequest
      match err with
      | some e => ⟨subscribersSlice, w.Write (.text e), false⟩
      -- `err.Error()` on a nil `error`: nil pointer dereference
      | none => ⟨subscribersSlice, w, true⟩
    else
      let (s, w) := subscribeLocked subscribersSlice payload.url w
      ⟨s, w, false⟩

/-- The critical section of `unsubscribe` (lines 84-94).  The slice expression
`append(subscribersSlice[:index], subscribersSlice[index+1:]...)` is the slice
without position `index`. -/
def unsubscribeLocked (subscribersSlice : List String) (url : String) (w : ResponseWriter) :
    List String × ResponseWriter :=
  let index := sort.SearchStrings subscribersSlice url
  if index = subscribersSlice.length then
    (subscribersSlice,
      (w.WriteHeader StatusNotFound).Write
        (.json (json.Marshal (ErrorPayload.fields { error := "URL is not registered" }))))
  else
    (subscribersSlice.take index ++ subscribersSlice.drop (index + 1), w.WriteHeader StatusOK)

/-- The handler `unsubscribe`. -/
def unsubscribe (reqBody : Body) (subscribersSlice : List String) : Outcome :=
  let w : ResponseWriter := {}
  match reqBody with
  | .readError e =>
    ⟨subscribersSlice, (w.WriteHeader StatusInternalServerError).Write (.text e), false⟩
  | .read data =>
    let (payload, err) := json.Unmarshal data {}
    match err with
    | some e => ⟨subscribersSlice, (w.WriteHeader StatusBadRequest).Write (.text e), false⟩
    | none =>
      let (s, w) := unsubscribeLocked subscribersSlice payload.url w
      ⟨s, w, false⟩

/-- One outbound `http.Post(url, contentType, body)`. -/
structure Post where
  url : String
  contentType : String
  body : String
deriving DecidableEq

/-- The delivery loop of `publish` (lines 108-114): the URLs whose POST returned an
error, and the POSTs issued, both in order.  `postErr i` tells whether the POST of
iteration `i` returned `err != nil`. -/
def publishLoop (postErr : Nat → Bool) (reqBody : String) (subscribersSlice : List String) :
    List String × List Post :=
  (List.range subscribersSlice.length).foldl
    (fun acc i =>
      let u := subscribersSlice.getD i ""
      (if postErr i then acc.1 ++ [u] else acc.1, acc.2 ++ [⟨u, "application/json", reqBody⟩]))
    ([], [])

/-- The handler `publish`; the second component lists the POSTs it issued. -/
def publish (postErr : Nat → Bool) (reqBody : Except String String)
    (subscribersSlice : List String) : Outcome × List Post :=
  let w : ResponseWriter := {}
  match reqBody with
  | .error e =>
    (⟨subscribersSlice, (w.WriteHeader StatusInternalServerError).Write (.text e), false⟩, [])
  | .ok reqBody =>
    let (failed, posts) := publishLoop postErr reqBody subscribersSlice
    if failed.length > 0 then
      (⟨subscribersSlice,
        (w.WriteHeader StatusConflict).Write
          (.json (json.Marshal (ErrorPayload.fields
            { error := "Cannot publish to URLs", url := failed }))), false⟩, posts)
    else
      (⟨subscribersSlice, w.WriteHeader StatusOK, false⟩, posts)

/-- The handler `subscriber`. -/
def subscriber (subscribersSlice : List String) : Outcome :=
  let w : ResponseWriter := {}
  ⟨subscribersSlice,
    (w.WriteHeader StatusOK).Write (.json (json.MarshalStrings subscribersSlice)), false⟩

/-! ## Sequences of registry steps -/

/-- A registry step: the critical section of `subscribe` or of `unsubscribe`. -/
inductive Op where
  | sub (url : String)
  | unsub (url : String)

/-- The registry after one registry step. -/
def Op.apply (s : List String) : Op → List String
  | .sub u => (subscribeLocked s u {}).1
  | .unsub u => (unsubscribeLocked s u {}).1

/-- The registries the program can reach from the empty one it starts with. -/
def Reachable (s : List String) : Prop := ∃ ops : List Op, ops.foldl Op.apply [] = s


/-! ## The binary search -/

theorem strLess_iff (a b : String) : strLess a b = true ↔ a < b := by
  simp [strLess, String.lt_iff_toList_lt]

theorem strLess_false_iff (a b : String) : strLess a b = false ↔ b ≤ a := by
  rw [← not_lt, ← strLess_iff]; simp

/-- The loop invariant of `sort.Search`: for a predicate that is monotone below `n`,
the loop started with everything before `i` false and `j` true (or `j = n`) ends,
within `j - i` iterations, at the first index where the predicate holds. -/
theorem searchLoop_spec (f : Nat → Bool) (n : Nat)
    (mono : ∀ a b, a ≤ b → b < n → f a = true → f b = true) :
    ∀ fuel i j, i ≤ j → j ≤ n → j - i ≤ fuel →
      (∀ k, k < i → f k = false) → (j < n → f j = true) →
      searchLoop f fuel i j ≤ n ∧ (∀ k, k < searchLoop f fuel i j → f k = false) ∧
        (searchLoop f fuel i j < n → f (searchLoop f fuel i j) = true) := by
  intro fuel
  induction fuel with
  | zero =>
    intro i j hij hjn hfuel hlo hhi
    have : i = j := by omega
    subst this
    exact ⟨hjn, hlo, hhi⟩
  | succ fuel ih =>
    intro i j hij hjn hfuel hlo hhi
    unfold searchLoop
    by_cases hlt : i < j
    · have h1 : i ≤ (i + j) / 2 := by omega
      have h2 : (i + j) / 2 < j := by omega
      simp only [hlt, if_true]
      cases hf : f ((i + j) / 2) with
      | false =>
        simp only [Bool.not_false, if_true]
        refine ih _ _ (by omega) hjn (by omega) ?_ hhi
        intro k hk
        cases hk2 : f k with
        | false => rfl
        | true =>
          have := mono k ((i + j) / 2) (by omega) (by omega) hk2
          rw [hf] at this
          exact this.symm
      | true =>
        simp only [Bool.not_true, Bool.false_eq_true, if_false]
        exact ih _ _ h1 (by omega) (by omega) hlo (fun _ => hf)
    · have : i = j := by omega
      subst this
      simp only [hlt, if_false]
      exact ⟨hjn, hlo, hhi⟩

/-- More iterations than `j - i` change nothing: the loop has ended by then. -/
theorem searchLoop_fuel (f : Nat → Bool) :
    ∀ fuel i j, j - i ≤ fuel → ∀ extra, searchLoop f (fuel + extra) i j = searchLoop f fuel i j := by
  intro fuel
  induction fuel with
  | zero =>
    intro i j h extra
    have hij : ¬ i < j := by omega
    cases extra with
    | zero => rfl
    | succ e => simp [searchLoop, hij]
  | succ fuel ih =>
    intro i j h extra
    rw [show fuel + 1 + extra = (fuel + extra) + 1 by omega]
    unfold searchLoop
    by_cases hlt : i < j
    · simp only [hlt, if_true]
      rw [ih _ _ (by omega), ih _ _ (by omega)]
    · simp only [hlt, if_false]

/-- On a slice sorted ascending, the predicate of `sort.SearchStrings` is monotone. -/
theorem ge_mono (a : List String) (x : String) (hs : a.Sorted (· ≤ ·)) :
    ∀ i k, i ≤ k → k < a.length →
      (!strLess (a.getD i "") x) = true → (!strLess (a.getD k "") x) = true := by
  intro i k hik hk h
  have hi : i < a.length := by omega
  simp only [Bool.not_eq_true', strLess_false_iff] at h ⊢
  rw [List.getD_eq_getElem _ _ hi] at h
  rw [List.getD_eq_getElem _ _ hk]
  rcases Nat.eq_or_lt_of_le hik with heq | hlt
  · subst heq; exact h
  · exact le_trans h (List.pairwise_iff_getElem.mp hs i k hi hk hlt)

/-- What `sort.SearchStrings` returns on a sorted slice: an index `r ≤ len(a)` with
every element before it below `x` and, when in range, `a[r] >= x`. -/
theorem SearchStrings_spec (a : List String) (x : String) (hs : a.Sorted (· ≤ ·)) :
    sort.SearchStrings a x ≤ a.length ∧
      (∀ k, k < sort.SearchStrings a x → a.getD k "" < x) ∧
      (sort.SearchStrings a x < a.length → x ≤ a.getD (sort.SearchStrings a x) "") := by
  have h := searchLoop_spec (fun i => !strLess (a.getD i "") x) a.length (ge_mono a x hs)
    a.length 0 a.length (Nat.zero_le _) (Nat.le_refl _) (by omega)
    (fun k hk => absurd hk (Nat.not_lt_zero k)) (fun hlt => absurd hlt (Nat.lt_irrefl _))
  obtain ⟨h1, h2, h3⟩ := h
  refine ⟨h1, ?_, ?_⟩
  · intro k hk
    have h : (!strLess (a.getD k "") x) = false := h2 k hk
    rw [Bool.not_eq_false', strLess_iff] at h
    exact h
  · intro hlt
    have h : (!strLess (a.getD (sort.SearchStrings a x) "") x) = true := h3 hlt
    rw [Bool.not_eq_true', strLess_false_iff] at h
    exact h

/-- On a sorted slice `sort.SearchStrings` answers `len(a)` exactly when every
element is below `x`. -/
theorem SearchStrings_eq_length_iff (a : List String) (x : String) (hs : a.Sorted (· ≤ ·)) :
    sort.SearchStrings a x = a.length ↔ ∀ y ∈ a, y < x := by
  obtain ⟨h1, h2, h3⟩ := SearchStrings_spec a x hs
  constructor
  · intro heq y hy
    obtain ⟨k, hk, rfl⟩ := List.getElem_of_mem hy
    have := h2 k (by omega)
    rwa [List.getD_eq_getElem _ _ hk] at this
  · intro hall
    by_contra hne
    have hlt : sort.SearchStrings a x < a.length := by omega
    have hge := h3 hlt
    rw [List.getD_eq_getElem _ _ hlt] at hge
    exact absurd (hall _ (List.getElem_mem _)) (not_lt.mpr hge)

/-! ## The registry steps on a sorted slice -/

/-- A sorted slice stays as it is under `sort.Strings`. -/
theorem Strings_of_sorted (a : List String) (hs : a.Sorted (· ≤ ·)) : sort.Strings a = a := by
  apply List.Sorted.insertionSort_eq
  exact List.Pairwise.imp (fun {x y} h => (strLess_false_iff y x).mpr h) hs

/-- The model of `sort.Strings` does what the library promises: its result is sorted
ascending and is a rearrangement of the slice. -/
theorem Strings_sorted_perm (a : List String) :
    (sort.Strings a).Sorted (· ≤ ·) ∧ (sort.Strings a).Perm a := by
  haveI : IsTotal String (fun x y => strLess y x = false) :=
    ⟨fun x y => by simp only [strLess_false_iff]; exact le_total x y⟩
  haveI : IsTrans String (fun x y => strLess y x = false) :=
    ⟨fun x y z => by simp only [strLess_false_iff]; exact le_trans⟩
  refine ⟨?_, List.perm_insertionSort _ a⟩
  exact List.Pairwise.imp (fun {x y} h => (strLess_false_iff y x).mp h)
    (List.sorted_insertionSort (fun x y => strLess y x = false) a)

theorem sorted_append_singleton (a : List String) (u : String) (hs : a.Sorted (· ≤ ·))
    (hall : ∀ y ∈ a, y < u) : (a ++ [u]).Sorted (· ≤ ·) := by
  unfold List.Sorted
  rw [List.pairwise_append]
  refine ⟨hs, List.pairwise_singleton _ _, ?_⟩
  intro y hy z hz
  rw [List.mem_singleton] at hz
  subst hz
  exact le_of_lt (hall y hy)

/-- The step of `subscribe` when every element is below `url`: the URL is appended. -/
theorem subscribeLocked_append (a : List String) (u : String) (w : ResponseWriter)
    (hs : a.Sorted (· ≤ ·)) (hall : ∀ y ∈ a, y < u) :
    subscribeLocked a u w = (a ++ [u], w.WriteHeader StatusOK) := by
  unfold subscribeLocked
  simp only [(SearchStrings_eq_length_iff a u hs).mpr hall, if_true]
  rw [Strings_of_sorted _ (sorted_append_singleton a u hs hall)]

/-- The step of `subscribe` when some element is not below `url`: refused. -/
theorem subscribeLocked_refuse (a : List String) (u : String) (w : ResponseWriter)
    (hs : a.Sorted (· ≤ ·)) (hex : ¬ ∀ y ∈ a, y < u) :
    subscribeLocked a u w = (a, (w.WriteHeader StatusForbidden).Write
      (.json (json.Marshal (ErrorPayload.fields { error := "URL is already registered" })))) := by
  unfold subscribeLocked
  have hne : sort.SearchStrings a u ≠ a.length :=
    fun h => hex ((SearchStrings_eq_length_iff a u hs).mp h)
  simp only [hne, if_false]

/-- The step of `unsubscribe` when every element is below `url`: nothing is removed. -/
theorem unsubscribeLocked_keep (a : List String) (u : String) (w : ResponseWriter)
    (hs : a.Sorted (· ≤ ·)) (hall : ∀ y ∈ a, y < u) :
    unsubscribeLocked a u w = (a, (w.WriteHeader StatusNotFound).Write
      (.json (json.Marshal (ErrorPayload.fields { error := "URL is not registered" })))) := by
  unfold unsubscribeLocked
  simp only [(SearchStrings_eq_length_iff a u hs).mpr hall, if_true]

/-- The step of `unsubscribe` when some element is not below `url`: the element at
the position found is removed. -/
theorem unsubscribeLocked_remove (a : List String) (u : String) (w : ResponseWriter)
    (hs : a.Sorted (· ≤ ·)) (hex : ¬ ∀ y ∈ a, y < u) :
    unsubscribeLocked a u w =
      (a.eraseIdx (sort.SearchStrings a u), w.WriteHeader StatusOK) := by
  unfold unsubscribeLocked
  have hne : sort.SearchStrings a u ≠ a.length :=
    fun h => hex ((SearchStrings_eq_length_iff a u hs).mp h)
  simp only [hne, if_false, List.eraseIdx_eq_take_drop_succ]

/-- The position `sort.SearchStrings` finds holds the least element that is not
below `x`. -/
theorem SearchStrings_least (a : List String) (x : String) (hs : a.Sorted (· ≤ ·))
    (hlt : sort.SearchStrings a x < a.length) :
    x ≤ a[sort.SearchStrings a x] ∧ ∀ y ∈ a, x ≤ y → a[sort.SearchStrings a x] ≤ y := by
  obtain ⟨_, h2, h3⟩ := SearchStrings_spec a x hs
  have hge := h3 hlt
  rw [List.getD_eq_getElem _ _ hlt] at hge
  refine ⟨hge, ?_⟩
  intro y hy hxy
  obtain ⟨k, hk, rfl⟩ := List.getElem_of_mem hy
  have hrk : sort.SearchStrings a x ≤ k := by
    by_contra hcon
    have := h2 k (by omega)
    rw [List.getD_eq_getElem _ _ hk] at this
    exact absurd this (not_lt.mpr hxy)
  rcases Nat.eq_or_lt_of_le hrk with heq | hlt2
  · simp only [heq, le_refl]
  · exact List.pairwise_iff_getElem.mp hs _ k hlt hk hlt2

/-- A member of a sorted slice is refused by the step of `subscribe`. -/
theorem subscribeLocked_member (a : List String) (u : String) (w : ResponseWriter)
    (hs : a.Sorted (· ≤ ·)) (hmem : u ∈ a) :
    subscribeLocked a u w = (a, (w.WriteHeader StatusForbidden).Write
      (.json (json.Marshal (ErrorPayload.fields { error := "URL is already registered" })))) :=
  subscribeLocked_refuse a u w hs (fun hall => lt_irrefl u (hall u hmem))

/-- A member of a sorted slice without duplicates is removed by the step of
`unsubscribe`, and nothing else is. -/
theorem unsubscribeLocked_member (a : List String) (u : String) (w : ResponseWriter)
    (hs : a.Sorted (· < ·)) (hmem : u ∈ a) :
    unsubscribeLocked a u w = (a.erase u, w.WriteHeader StatusOK) := by
  have hle : a.Sorted (· ≤ ·) := List.Pairwise.imp (fun {_ _} h => le_of_lt h) hs
  have hex : ¬ ∀ y ∈ a, y < u := fun hall => lt_irrefl u (hall u hmem)
  rw [unsubscribeLocked_remove a u w hle hex]
  have hlt : sort.SearchStrings a u < a.length := by
    have h1 := (SearchStrings_spec a u hle).1
    have hne : sort.SearchStrings a u ≠ a.length :=
      fun h => hex ((SearchStrings_eq_length_iff a u hle).mp h)
    omega
  obtain ⟨hge, hleast⟩ := SearchStrings_least a u hle hlt
  have heq : a[sort.SearchStrings a u] = u := le_antisymm (hleast u hmem (le_refl u)) hge
  rw [← List.Nodup.erase_getElem hs.nodup _ hlt, heq]

/-- When every member is below the URL, the step of `subscribe` followed by the step
of `unsubscribe` gives the slice back. -/
theorem round_trip_of_all_lt (a : List String) (u : String) (hs : a.Sorted (· < ·))
    (hall : ∀ y ∈ a, y < u) :
    (unsubscribeLocked (subscribeLocked a u {}).1 u {}).1 = a := by
  have hle : a.Sorted (· ≤ ·) := List.Pairwise.imp (fun {_ _} h => le_of_lt h) hs
  rw [subscribeLocked_append a u _ hle hall]
  have hs2 : (a ++ [u]).Sorted (· < ·) := by
    unfold List.Sorted
    rw [List.pairwise_append]
    refine ⟨hs, List.pairwise_singleton _ _, ?_⟩
    intro y hy z hz
    rw [List.mem_singleton] at hz
    subst hz
    exact hall y hy
  rw [unsubscribeLocked_member (a ++ [u]) u _ hs2 (by simp)]
  have hnot : u ∉ a := fun h => lt_irrefl u (hall u h)
  simp [List.erase_append_right _ hnot]

/-! ## Reachable registries are strictly ascending -/

theorem sorted_le_of_lt {a : List String} (h : a.Sorted (· < ·)) : a.Sorted (· ≤ ·) :=
  List.Pairwise.imp (fun {_ _} h => le_of_lt h) h

theorem Op.apply_sorted (s : List String) (op : Op) (hs : s.Sorted (· < ·)) :
    (op.apply s).Sorted (· < ·) := by
  cases op with
  | sub u =>
    simp only [Op.apply]
    by_cases hall : ∀ y ∈ s, y < u
    · rw [subscribeLocked_append s u _ (sorted_le_of_lt hs) hall]
      unfold List.Sorted
      rw [List.pairwise_append]
      refine ⟨hs, List.pairwise_singleton _ _, ?_⟩
      intro y hy z hz
      rw [List.mem_singleton] at hz
      subst hz
      exact hall y hy
    · rw [subscribeLocked_refuse s u _ (sorted_le_of_lt hs) hall]
      exact hs
  | unsub u =>
    simp only [Op.apply]
    by_cases hall : ∀ y ∈ s, y < u
    · rw [unsubscribeLocked_keep s u _ (sorted_le_of_lt hs) hall]
      exact hs
    · rw [unsubscribeLocked_remove s u _ (sorted_le_of_lt hs) hall]
      exact List.Pairwise.sublist (List.eraseIdx_sublist _ _) hs

theorem foldl_apply_sorted (ops : List Op) :
    ∀ s : List String, s.Sorted (· < ·) → (ops.foldl Op.apply s).Sorted (· < ·) := by
  induction ops with
  | nil => intro s hs; exact hs
  | cons op ops ih => intro s hs; exact ih _ (Op.apply_sorted s op hs)

/-- Every reachable registry is sorted strictly ascending. -/
theorem Reachable.sorted {s : List String} (h : Reachable s) : s.Sorted (· < ·) := by
  obtain ⟨ops, rfl⟩ := h
  exact foldl_apply_sorted ops [] List.sorted_nil

/-! ## Concrete strings used below -/

theorem a_lt_b : "http://a" < "http://b" := by
  rw [String.lt_iff_toList_lt]; decide

theorem b_lt_c : "http://b" < "http://c" := by
  rw [String.lt_iff_toList_lt]; decide

theorem sorted_ac : (["http://a", "http://c"] : List String).Sorted (· ≤ ·) := by
  simp only [List.Sorted, List.pairwise_cons, List.mem_singleton, forall_eq, List.not_mem_nil,
    false_implies, implies_true, List.Pairwise.nil, and_true]
  exact le_of_lt (lt_trans a_lt_b b_lt_c)

theorem not_all_lt_b : ¬ ∀ y ∈ (["http://a", "http://c"] : List String), y < "http://b" :=
  fun h => absurd (h "http://c" (by simp)) (not_lt.mpr (le_of_lt b_lt_c))

/-! ## The registry steps: what they do on every sorted slice -/

/-- C9: on a slice sorted ascending the registry step of `subscribe` answers 200 if and
only if every member is strictly below the URL; then the new slice is the old one
with the URL appended and `sort.Strings` leaves it as it is.  In every other case
the step answers 403 and the slice is unchanged. -/
theorem subscribeLocked_added_iff (R : List String) (u : String) (hs : R.Sorted (· ≤ ·)) :
    ((subscribeLocked R u {}).2.status = some StatusOK ↔ ∀ y ∈ R, y < u) ∧
    ((∀ y ∈ R, y < u) →
      (subscribeLocked R u {}).1 = R ++ [u] ∧ sort.Strings (R ++ [u]) = R ++ [u]) ∧
    (¬ (∀ y ∈ R, y < u) →
      (subscribeLocked R u {}).2.status = some StatusForbidden ∧
        (subscribeLocked R u {}).1 = R) := by
  refine ⟨?_, ?_, ?_⟩
  · by_cases hall : ∀ y ∈ R, y < u
    · rw [subscribeLocked_append R u _ hs hall]
      exact ⟨fun _ => hall, fun _ => rfl⟩
    · rw [subscribeLocked_refuse R u _ hs hall]
      exact ⟨fun h => absurd (show some StatusForbidden = some StatusOK from h) (by decide),
        fun h => absurd h hall⟩
  · intro hall
    rw [subscribeLocked_append R u _ hs hall]
    exact ⟨rfl, Strings_of_sorted _ (sorted_append_singleton R u hs hall)⟩
  · intro hall
    rw [subscribeLocked_refuse R u _ hs hall]
    exact ⟨rfl, rfl⟩

/-- C9 at the slice `["http://a", "http://c"]` and the URL `"http://b"`: the slice is
sorted, one member is not below the URL, and the step answers 403 without a change. -/
theorem subscribeLocked_added_iff_witness :
    (["http://a", "http://c"] : List String).Sorted (· ≤ ·) ∧
    (subscribeLocked ["http://a", "http://c"] "http://b" {}).2.status = some StatusForbidden ∧
    (subscribeLocked ["http://a", "http://c"] "http://b" {}).1 = ["http://a", "http://c"] :=
  ⟨sorted_ac, (subscribeLocked_added_iff _ _ sorted_ac).2.2 not_all_lt_b⟩

/-- C10: on a slice sorted ascending the registry step of `unsubscribe` answers 404 and
leaves the slice unchanged if and only if every member is strictly below the URL;
otherwise it answers 200 and removes exactly the element at one position, which
holds the least member that is not below the URL (the URL itself iff it is a member). -/
theorem unsubscribeLocked_spec (R : List String) (u : String) (hs : R.Sorted (· ≤ ·)) :
    (((unsubscribeLocked R u {}).2.status = some StatusNotFound ∧
        (unsubscribeLocked R u {}).1 = R) ↔ ∀ y ∈ R, y < u) ∧
    (¬ (∀ y ∈ R, y < u) →
      (unsubscribeLocked R u {}).2.status = some StatusOK ∧
      ∃ i, ∃ hi : i < R.length,
        u ≤ R[i] ∧ (∀ y ∈ R, u ≤ y → R[i] ≤ y) ∧ (R[i] = u ↔ u ∈ R) ∧
        (unsubscribeLocked R u {}).1 = R.eraseIdx i) := by
  refine ⟨?_, ?_⟩
  · by_cases hall : ∀ y ∈ R, y < u
    · rw [unsubscribeLocked_keep R u _ hs hall]
      exact ⟨fun _ => hall, fun _ => ⟨rfl, rfl⟩⟩
    · rw [unsubscribeLocked_remove R u _ hs hall]
      exact ⟨fun h => absurd (show some StatusOK = some StatusNotFound from h.1) (by decide),
        fun h => absurd h hall⟩
  · intro hall
    rw [unsubscribeLocked_remove R u _ hs hall]
    have hlt : sort.SearchStrings R u < R.length := by
      have hle := (SearchStrings_spec R u hs).1
      have hne : sort.SearchStrings R u ≠ R.length :=
        fun h => hall ((SearchStrings_eq_length_iff R u hs).mp h)
      omega
    obtain ⟨hge, hleast⟩ := SearchStrings_least R u hs hlt
    refine ⟨rfl, sort.SearchStrings R u, hlt, hge, hleast, ?_, rfl⟩
    constructor
    · intro heq
      rw [← heq]
      exact List.getElem_mem _
    · intro hmem
      exact le_antisymm (hleast u hmem (le_refl u)) hge

/-- C10 at the slice `["http://a", "http://c"]` and the string `"http://b"`, which is
not a member: the step answers 200 and the slice loses a member. -/
theorem unsubscribeLocked_spec_witness :
    (["http://a", "http://c"] : List String).Sorted (· ≤ ·) ∧
    (unsubscribeLocked ["http://a", "http://c"] "http://b" {}).2.status = some StatusOK :=
  ⟨sorted_ac, ((unsubscribeLocked_spec _ _ sorted_ac).2 not_all_lt_b).1⟩

/-! ## Invariants over all reachable registries -/

/-- C5: in every reachable registry, a registry step of `subscribe` that answers 200
leaves a slice that holds the URL exactly once, is sorted ascending and has no
duplicates. -/
theorem subscribe_ok_sorted_once (s : List String) (u : String) (hr : Reachable s)
    (hok : (subscribeLocked s u {}).2.status = some StatusOK) :
    (subscribeLocked s u {}).1.count u = 1 ∧ (subscribeLocked s u {}).1.Sorted (· ≤ ·) ∧
      (subscribeLocked s u {}).1.Nodup := by
  have hs := hr.sorted
  have hnext : ((Op.sub u).apply s).Sorted (· < ·) := Op.apply_sorted s _ hs
  simp only [Op.apply] at hnext
  refine ⟨?_, sorted_le_of_lt hnext, hnext.nodup⟩
  by_cases hall : ∀ y ∈ s, y < u
  · rw [subscribeLocked_append s u _ (sorted_le_of_lt hs) hall]
    have hnot : u ∉ s := fun h => lt_irrefl u (hall u h)
    simp [List.count_append, List.count_eq_zero_of_not_mem hnot]
  · rw [subscribeLocked_refuse s u _ (sorted_le_of_lt hs) hall] at hok
    exact absurd (show some StatusForbidden = some StatusOK from hok) (by decide)

/-- C5 at the registry `["http://a"]`, reached by subscribing `"http://a"`, and the
URL `"http://b"`. -/
theorem subscribe_ok_sorted_once_witness :
    Reachable ["http://a"] ∧
    (subscribeLocked ["http://a"] "http://b" {}).2.status = some StatusOK ∧
    (subscribeLocked ["http://a"] "http://b" {}).1.count "http://b" = 1 ∧
    (subscribeLocked ["http://a"] "http://b" {}).1.Sorted (· ≤ ·) ∧
    (subscribeLocked ["http://a"] "http://b" {}).1.Nodup :=
  ⟨⟨[.sub "http://a"], by decide⟩, by decide,
    subscribe_ok_sorted_once ["http://a"] "http://b" ⟨[.sub "http://a"], by decide⟩ (by decide)⟩

/-- C6: in every reachable registry, a registry step of `unsubscribe` that answers 200
leaves a slice that does not hold the string it was given. -/
theorem unsubscribe_ok_not_mem (s : List String) (u : String) (hr : Reachable s)
    (hok : (unsubscribeLocked s u {}).2.status = some StatusOK) :
    u ∉ (unsubscribeLocked s u {}).1 := by
  have hs := hr.sorted
  have hle := sorted_le_of_lt hs
  by_cases hall : ∀ y ∈ s, y < u
  · rw [unsubscribeLocked_keep s u _ hle hall] at hok
    exact absurd (show some StatusNotFound = some StatusOK from hok) (by decide)
  · rw [unsubscribeLocked_remove s u _ hle hall]
    obtain ⟨hlen, hbelow, habove⟩ := SearchStrings_spec s u hle
    have hlt : sort.SearchStrings s u < s.length := by
      have hne : sort.SearchStrings s u ≠ s.length :=
        fun h => hall ((SearchStrings_eq_length_iff s u hle).mp h)
      omega
    have hge := habove hlt
    rw [List.getD_eq_getElem _ _ hlt] at hge
    intro hmem
    obtain ⟨i, hi, hne, rfl⟩ := List.mem_eraseIdx_iff_getElem.mp hmem
    rcases Nat.lt_or_gt_of_ne hne with h1 | h1
    · have := hbelow i h1
      rw [List.getD_eq_getElem _ _ hi] at this
      exact lt_irrefl _ this
    · have := List.pairwise_iff_getElem.mp hs _ i hlt hi h1
      exact absurd this (not_lt.mpr hge)

/-- C6 at the registry `["http://a"]` and the member `"http://a"`. -/
theorem unsubscribe_ok_not_mem_witness :
    Reachable ["http://a"] ∧
    (unsubscribeLocked ["http://a"] "http://a" {}).2.status = some StatusOK ∧
    "http://a" ∉ (unsubscribeLocked ["http://a"] "http://a" {}).1 :=
  ⟨⟨[.sub "http://a"], by decide⟩, by decide,
    unsubscribe_ok_not_mem ["http://a"] "http://a" ⟨[.sub "http://a"], by decide⟩ (by decide)⟩

/-! ## `encoding/json` never reaches the fields of the two payload structs -/

theorem SubscribePayload_no_exported_field :
    SubscribePayload.fields.filter Field.exported = [] := by
  rfl

theorem decodeMember_id (st : SubscribePayload × Option String) (kv : String × Json) :
    decodeMember st kv = st := by
  unfold decodeMember
  rw [SubscribePayload_no_exported_field]
  rfl

/-- Decoding a JSON object into a `SubscribePayload` succeeds and sets nothing. -/
theorem Unmarshal_obj (members : List (String × Json)) (payload : SubscribePayload) :
    json.Unmarshal (.ok (.obj members)) payload = (payload, none) := by
  unfold json.Unmarshal
  induction members with
  | nil => rfl
  | cons kv rest ih =>
    simp only [List.foldl_cons, decodeMember_id]
    exact ih

/-- The document `json.Marshal` writes for an `ErrorPayload` is the empty object. -/
theorem Marshal_ErrorPayload (e : ErrorPayload) :
    json.Marshal (ErrorPayload.fields e) = .obj [] := by
  rfl

/-- The handler `subscribe` on a body that is a JSON object, whatever its members:
`payload.url` is still the empty string, so the handler panics after `WriteHeader(400)`
when `IsUrl("")` is false, and runs the registry step on `""` otherwise. -/
theorem subscribe_obj (parse : String → Except String URL) (members : List (String × Json))
    (s : List String) :
    subscribe parse (.read (.ok (.obj members))) s =
      if IsUrl parse "" then
        ⟨(subscribeLocked s "" { status := none, body := [] }).1,
          (subscribeLocked s "" { status := none, body := [] }).2, false⟩
      else ⟨s, ⟨some StatusBadRequest, []⟩, true⟩ := by
  unfold subscribe
  simp only [Unmarshal_obj]
  cases h : IsUrl parse "" <;> simp [h, ResponseWriter.WriteHeader]

/-! ## The delivery loop -/

theorem publishLoop_upto (postErr : Nat → Bool) (payload : String) (R : List String) :
    ∀ n, n ≤ R.length →
      (List.range n).foldl
        (fun (acc : List String × List Post) i =>
          (if postErr i then acc.1 ++ [R.getD i ""] else acc.1,
            acc.2 ++ [⟨R.getD i "", "application/json", payload⟩]))
        ([], []) =
      (((List.range n).filter postErr).map (fun i => R.getD i ""),
        (R.take n).map (fun u => ⟨u, "application/json", payload⟩)) := by
  intro n
  induction n with
  | zero => intro _; rfl
  | succ n ih =>
    intro hn
    have hlt : n < R.length := by omega
    rw [List.range_succ, List.foldl_append, ih (by omega)]
    simp only [List.foldl_cons, List.foldl_nil, List.filter_append, List.map_append,
      List.take_succ, List.getElem?_eq_getElem hlt, Option.toList_some, List.map_cons,
      List.map_nil, List.getD_eq_getElem _ _ hlt]
    cases hp : postErr n <;> simp [hp, List.getElem?_eq_getElem hlt]

/-- The delivery loop of `publish`: one POST per element in slice order, and the
failed URLs are those of the iterations whose POST returned an error, in order. -/
theorem publishLoop_eq (postErr : Nat → Bool) (payload : String) (R : List String) :
    publishLoop postErr payload R =
      (((List.range R.length).filter postErr).map (fun i => R.getD i ""),
        R.map (fun u => ⟨u, "application/json", payload⟩)) := by
  have h := publishLoop_upto postErr payload R R.length (Nat.le_refl _)
  rw [List.take_length] at h
  exact h

theorem range_map_getD (R : List String) :
    (List.range R.length).map (fun i => R.getD i "") = R := by
  apply List.ext_getElem
  · simp
  · intro i h1 h2
    simp only [List.getElem_map, List.getElem_range]
    exact List.getD_eq_getElem _ _ h2

/-- The failure report is a sublist of the registry. -/
theorem publishLoop_sublist (postErr : Nat → Bool) (payload : String) (R : List String) :
    (publishLoop postErr payload R).1.Sublist R := by
  rw [publishLoop_eq]
  have h : (((List.range R.length).filter postErr).map (fun i => R.getD i "")).Sublist
      ((List.range R.length).map (fun i => R.getD i "")) :=
    List.Sublist.map _ (List.filter_sublist _)
  rw [range_map_getD] at h
  exact h

/-- The handler `publish` on a body it could read: the status is 200 when no POST
failed and 409 otherwise, and the document written with 409 is the empty object. -/
theorem publish_read (postErr : Nat → Bool) (payload : String) (R : List String) :
    publish postErr (.ok payload) R =
      (⟨R, if (publishLoop postErr payload R).1 = [] then ⟨some StatusOK, []⟩
            else ⟨some StatusConflict, [.json (.obj [])]⟩, false⟩,
        R.map (fun u => ⟨u, "application/json", payload⟩)) := by
  unfold publish
  simp only [publishLoop_eq]
  cases hf : ((List.range R.length).filter postErr).map (fun i => R.getD i "") with
  | nil => rfl
  | cons x xs =>
    simp only [List.length_cons, gt_iff_lt, Nat.zero_lt_succ, if_true, Marshal_ErrorPayload,
      reduceCtorEq, if_false]
    rfl

/-! ## Where the code departs from its specification -/

/-- C1 (the code at the failing input): subscribing `"http://b"` on the empty registry
answers 200; the registry `["http://b"]` does not hold `"http://a"`, yet the registry
step of `subscribe` on `"http://a"` answers 403 and leaves the registry as it is. -/
theorem subscribe_b_then_a_refused :
    subscribeLocked [] "http://b" {} = (["http://b"], ⟨some 200, []⟩) ∧
    "http://a" ∉ ["http://b"] ∧
    subscribeLocked ["http://b"] "http://a" {} =
      (["http://b"], ⟨some 403, [.json (.obj [])]⟩) :=
  ⟨rfl, by decide, rfl⟩

/-- C2 (the code at the failing input): the registry `["http://b"]` does not hold
`"http://a"`, yet the registry step of `unsubscribe` on `"http://a"` answers 200 and
removes `"http://b"`. -/
theorem unsubscribe_absent_removes_next :
    "http://a" ∉ ["http://b"] ∧
    unsubscribeLocked ["http://b"] "http://a" {} = ([], ⟨some 200, []⟩) :=
  ⟨by decide, rfl⟩

/-- C3 (the code at the failing input): from the reachable registry `["http://b"]`, which
does not hold `"http://a"`, the subscribe step on `"http://a"` followed by the
unsubscribe step on `"http://a"` ends in the empty registry, and `subscriber` then
lists nothing. -/
theorem subscribe_unsubscribe_loses_member :
    Reachable ["http://b"] ∧ "http://a" ∉ ["http://b"] ∧
    (unsubscribeLocked (subscribeLocked ["http://b"] "http://a" {}).1 "http://a" {}).1 = [] ∧
    (subscriber
      (unsubscribeLocked (subscribeLocked ["http://b"] "http://a" {}).1 "http://a" {}).1).w =
      ⟨some 200, [.json (.arr [])]⟩ :=
  ⟨⟨[.sub "http://b"], by decide⟩, by decide, by decide, rfl⟩

/-- C4 (the code at the failing input): decoding the body with the member `"url"` set to
`"http://a"` leaves `payload.url` empty, so on the empty registry `subscribe` panics
unless `IsUrl("")` holds, and in no case does the registry become `["http://a"]`. -/
theorem subscribe_url_member_ignored (parse : String → Except String URL) :
    (json.Unmarshal (.ok (.obj [("url", .str "http://a")])) {}).1.url = "" ∧
    (subscribe parse (.read (.ok (.obj [("url", .str "http://a")]))) []).panicked =
      !IsUrl parse "" ∧
    (subscribe parse (.read (.ok (.obj [("url", .str "http://a")]))) []).subscribersSlice ≠
      ["http://a"] := by
  refine ⟨by rw [Unmarshal_obj], ?_, ?_⟩
  · rw [subscribe_obj]
    cases IsUrl parse "" <;> rfl
  · rw [subscribe_obj]
    cases IsUrl parse "" <;> decide

/-- C7 (the code at the failing input): with the registry `["http://down", "http://up"]`
and the first POST failing, `publish` issues both POSTs in order, collects
`["http://down"]` and answers 409, but the document it writes is the empty object. -/
theorem publish_conflict_body_empty :
    (publishLoop (fun i => i == 0) "\x7b\"x\":1\x7d" ["http://down", "http://up"]).1 =
      ["http://down"] ∧
    publish (fun i => i == 0) (.ok "\x7b\"x\":1\x7d") ["http://down", "http://up"] =
      (⟨["http://down", "http://up"], ⟨some 409, [.json (.obj [])]⟩, false⟩,
        [⟨"http://down", "application/json", "\x7b\"x\":1\x7d"⟩,
         ⟨"http://up", "application/json", "\x7b\"x\":1\x7d"⟩]) :=
  ⟨by decide, rfl⟩

theorem subscribeLocked_status_ne_400 (s : List String) (u : String) :
    (subscribeLocked s u {}).2.status ≠ some StatusBadRequest := by
  unfold subscribeLocked
  by_cases h : sort.SearchStrings s u = s.length
  · simp only [h, if_true]
    exact fun h => absurd (show some StatusOK = some StatusBadRequest from h) (by decide)
  · simp only [h, if_false]
    exact fun h => absurd (show some StatusForbidden = some StatusBadRequest from h) (by decide)

/-- C8 (the code on every body that is a JSON object): `subscribe` panics exactly when
`IsUrl` rejects `payload.url`, which is the empty string; then 400 was the header
written and the registry is unchanged.  It never returns with status 400. -/
theorem subscribe_decoded_never_returns_400 (parse : String → Except String URL)
    (members : List (String × Json)) (s : List String) :
    (subscribe parse (.read (.ok (.obj members))) s).panicked = !IsUrl parse "" ∧
    (subscribe parse (.read (.ok (.obj members))) s =
        ⟨s, ⟨some StatusBadRequest, []⟩, true⟩ ∨ IsUrl parse "" = true) ∧
    ¬ ((subscribe parse (.read (.ok (.obj members))) s).panicked = false ∧
        (subscribe parse (.read (.ok (.obj members))) s).w.status = some StatusBadRequest) := by
  rw [subscribe_obj]
  cases h : IsUrl parse ""
  · exact ⟨rfl, Or.inl rfl, fun hc => absurd (show true = false from hc.1) (by decide)⟩
  · exact ⟨rfl, Or.inr rfl, fun hc => subscribeLocked_status_ne_400 s "" hc.2⟩

end PubSub
